import Mathlib

/-!
Verification of the lazybox mailbox-automation service.

Shallow embedding of the TypeScript sources:
* `Fetch`      — the shared HTTP retry/backoff utility (`fetchWithRetry`).
* `Proposals`  — proposal review / execution server functions.
* `Shopify`    — `runShopifyAction` input validation and dispatch.
* `Agent`      — `proposeFromEmail` heuristic fallback.
* `SecureStore`— AES-256-GCM token envelope (pack/unpack and key check).
* `Gmail`      — `pollForUser` delta sync, fallback list, idempotent
  persistence, cursor update, and the `poll` throttle/concurrency guard.

External effects (the network, the database, `Math.random`, `randomUUID`,
the AES-GCM primitive) are passed in as explicit oracles or state so that
every definition is executable.
-/

namespace Fetch

/-- A parsed HTTP response as `fetchWithRetry` observes it: its status code
and the numeric value of the `retry-after` header
(`Number(res.headers.get("retry-after")) || 0`; a missing or non-numeric
header yields `0`). -/
structure RespData where
  status : Nat
  retryAfter : Int
  deriving Repr, DecidableEq

/-- Outcome of one `fetch` attempt: the promise either rejects
(network error or timeout abort) or resolves to a response. -/
inductive Outcome where
  | err
  | resp (r : RespData)
  deriving Repr, DecidableEq

/-- Predicate `shouldRetryResponse` from the source: retry on 429 or any 5xx. -/
def shouldRetryResponse (r : RespData) : Bool :=
  r.status == 429 || decide (r.status ≥ 500)

/-- An attempt outcome triggers a retry iff the fetch threw or the
response is retryable. -/
def retryable (o : Outcome) : Bool :=
  match o with
  | .err => true
  | .resp r => shouldRetryResponse r

/-- The wait before the retry that follows attempt `attempt`:
`Retry-After` seconds when the response carries a positive value,
otherwise `backoffMs * 2 ^ attempt` plus the sampled jitter. -/
def waitFor (backoffMs : Nat) (jitter : Nat → Nat) (attempt : Nat)
    (o : Outcome) : Nat :=
  match o with
  | .err => backoffMs * 2 ^ attempt + jitter attempt
  | .resp r =>
      if r.retryAfter > 0 then r.retryAfter.toNat * 1000
      else backoffMs * 2 ^ attempt + jitter attempt

/-- Options of `fetchWithRetry` (the fields the control flow reads). -/
structure Opts where
  method : Option String := none
  headers : List (String × String) := []
  retries : Option Nat := none
  backoffMs : Option Nat := none
  idempotencyKey : Option String := none

/-- Exact-key lookup in a JS object modelled as an association list. -/
def lookupHeader (hs : List (String × String)) (k : String) : Option String :=
  match hs with
  | [] => none
  | p :: rest => if p.1 == k then some p.2 else lookupHeader rest k

/-- JS string truthiness: only the empty string is falsy. -/
def truthyStr (v : Option String) : Bool :=
  match v with
  | none => false
  | some s => s ≠ ""

def mutatingMethods : List String := ["POST", "PUT", "PATCH", "DELETE"]

/-- Predicate `isMutating` from the source: method (upper-cased) is one of
POST/PUT/PATCH/DELETE. -/
def isMutating (method : String) : Bool :=
  mutatingMethods.contains (method.toList.map Char.toUpper).asString

/-- The headers actually sent, computed once before the retry loop:
a mutating request without a truthy `X-Idempotency-Key` header gets one,
using the caller's `idempotencyKey` when truthy, else a fresh UUID. -/
def baseHeaders (opts : Opts) (uuid : String) : List (String × String) :=
  let method := opts.method.getD "GET"
  if isMutating method &&
      !(truthyStr (lookupHeader opts.headers "X-Idempotency-Key")) then
    opts.headers ++
      [("X-Idempotency-Key",
        match opts.idempotencyKey with
        | some k => if k ≠ "" then k else uuid
        | none => uuid)]
  else opts.headers

/-- Result of a whole `fetchWithRetry` run: the headers of every issued
attempt, the waits slept between attempts, and the final outcome
(`Except.error` models the rethrown exception). -/
structure RunResult where
  sent : List (List (String × String))
  waits : List Nat
  result : Except Unit RespData
  deriving Repr

/-- The retry loop. `fuel` is the number of retries still permitted
(`retries - attempt` in the source, where the loop retries only while
`attempt < retries`). `outcomes i` is what the `i`-th fetch does. -/
def runFrom (backoffMs : Nat) (jitter : Nat → Nat) (outcomes : Nat → Outcome)
    (hs : List (String × String)) : Nat → Nat → RunResult
  | attempt, 0 =>
      match outcomes attempt with
      | .err => ⟨[hs], [], .error ()⟩
      | .resp r => ⟨[hs], [], .ok r⟩
  | attempt, fuel + 1 =>
      match outcomes attempt with
      | .err =>
          let w := backoffMs * 2 ^ attempt + jitter attempt
          let rest := runFrom backoffMs jitter outcomes hs (attempt + 1) fuel
          ⟨hs :: rest.sent, w :: rest.waits, rest.result⟩
      | .resp r =>
          if shouldRetryResponse r then
            let w := waitFor backoffMs jitter attempt (outcomes attempt)
            let rest := runFrom backoffMs jitter outcomes hs (attempt + 1) fuel
            ⟨hs :: rest.sent, w :: rest.waits, rest.result⟩
          else ⟨[hs], [], .ok r⟩

/-- Function `fetchWithRetry`: applies the option defaults (`retries = 2`,
`backoffMs = 500`, method `GET`), computes the headers once, and runs the
attempt loop. `uuid` models `randomUUID()`, `jitter i` models the
`Math.floor(Math.random() * 250)` sample before the retry after attempt
`i`, and `outcomes` models the network. -/
def fetchWithRetry (opts : Opts) (uuid : String) (jitter : Nat → Nat)
    (outcomes : Nat → Outcome) : RunResult :=
  let retries := opts.retries.getD 2
  let backoffMs := opts.backoffMs.getD 500
  runFrom backoffMs jitter outcomes (baseHeaders opts uuid) 0 retries

/-- Index of the attempt whose outcome settles the call: the first
non-retryable outcome, capped at `retries` (the last permitted attempt). -/
def firstSettled (outcomes : Nat → Outcome) : Nat → Nat → Nat
  | attempt, 0 => attempt
  | attempt, fuel + 1 =>
      if retryable (outcomes attempt) then
        firstSettled outcomes (attempt + 1) fuel
      else attempt

end Fetch

namespace Proposals

/-- Proposal status column: `proposed|approved|rejected|executed|failed`. -/
inductive Status where
  | proposed | approved | rejected | executed | failed
  deriving Repr, DecidableEq

/-- Review decision accepted by the zod validators:
`z.enum(["approved", "rejected"])`. -/
inductive ReviewDecision where
  | approved | rejected
  deriving Repr, DecidableEq

def ReviewDecision.toStatus : ReviewDecision → Status
  | .approved => .approved
  | .rejected => .rejected

/-- A row of the `proposal` table (the columns the review/execute
handlers read or write). -/
structure Proposal where
  id : String
  userId : String
  actionType : String
  status : Status
  deriving Repr, DecidableEq

/-- A row of the `action` table inserted by `executeProposal`. -/
structure ActionRow where
  id : String
  proposalId : String
  status : Status
  deriving Repr, DecidableEq

/-- The slice of database state these handlers touch. -/
structure Db where
  proposals : List Proposal
  actions : List ActionRow
  deriving Repr, DecidableEq

/-- Outcome of a handler, as its JSON envelope. -/
inductive HandlerResult where
  | ok
  | okUpdated (ids : List String)
  | okExecuted (actionId : String)
  | errNotFound
  | errInvalidStatus
  | errExecutionFailed (actionId : String)
  deriving Repr, DecidableEq

/-- Lookup `db.query.proposal.findFirst` filtered by proposal id and user id. -/
def findProposal (db : Db) (userId pid : String) : Option Proposal :=
  db.proposals.find? (fun r => r.id == pid && r.userId == userId)

/-- Update `db.update(proposal).set({status}).where(eq(proposal.id, pid))`. -/
def setStatusById (rows : List Proposal) (pid : String) (s : Status) :
    List Proposal :=
  rows.map (fun r => if r.id == pid then { r with status := s } else r)

/-- Handler `reviewProposal`: loads the row scoped to the user, rejects missing
rows and rows whose status is not one of `proposed|approved|rejected`
with `invalid_status`, otherwise sets the status to the decision. -/
def reviewProposal (db : Db) (userId pid : String) (d : ReviewDecision) :
    HandlerResult × Db :=
  match findProposal db userId pid with
  | none => (.errNotFound, db)
  | some row =>
      if row.status ≠ .proposed && row.status ≠ .approved &&
          row.status ≠ .rejected then
        (.errInvalidStatus, db)
      else
        (.ok, { db with proposals := setStatusById db.proposals row.id d.toStatus })

/-- Handler `executeProposal`: loads the row scoped to the user; statuses other
than `proposed|approved` yield `invalid_status`; otherwise the bridge is
called (`bridgeOk` models `runShopifyActionBridge(...).ok`), an `action`
row is inserted and the proposal moves to `executed` or `failed`.
The Bool in the result records whether the bridge was invoked. -/
def executeProposal (db : Db) (userId pid : String) (bridgeOk : Bool)
    (actionUuid : String) : HandlerResult × Bool × Db :=
  match findProposal db userId pid with
  | none => (.errNotFound, false, db)
  | some row =>
      if row.status ≠ .proposed && row.status ≠ .approved then
        (.errInvalidStatus, false, db)
      else
        let newStatus : Status := if bridgeOk then .executed else .failed
        let db' : Db :=
          { proposals := setStatusById db.proposals row.id newStatus,
            actions := db.actions ++
              [⟨actionUuid, row.id, newStatus⟩] }
        if bridgeOk then (.okExecuted actionUuid, true, db')
        else (.errExecutionFailed actionUuid, true, db')

/-- One row's fate under the `bulkReviewProposals` UPDATE ... WHERE:
rows of this user whose id is listed and whose status is
`proposed|approved|rejected` take the decision. -/
def bulkRowMatches (userId : String) (ids : List String) (r : Proposal) :
    Bool :=
  r.userId == userId && ids.contains r.id &&
    (r.status == .proposed || r.status == .approved || r.status == .rejected)

/-- Handler `bulkReviewProposals`: a single guarded UPDATE returning the ids of
the rows it changed. -/
def bulkReviewProposals (db : Db) (userId : String) (ids : List String)
    (d : ReviewDecision) : HandlerResult × Db :=
  let updated := (db.proposals.filter (bulkRowMatches userId ids)).map (·.id)
  let rows := db.proposals.map (fun r =>
    if bulkRowMatches userId ids r then { r with status := d.toStatus } else r)
  (.okUpdated updated, { db with proposals := rows })

end Proposals

namespace Shopify

end Shopify

namespace Agent

/-- A proposed action as `proposeFromEmail` returns it (payload is `{}`
on the heuristic path, so it is omitted from the model). -/
structure ProposedAction where
  id : String
  actionType : String
  summary : String
  deriving Repr, DecidableEq

/-- Characters matched by `.` in a JS regex without the `s` flag:
everything except line terminators. -/
def jsDot (c : Char) : Bool :=
  !(c == '\n' || c == '\r' || c == ' ' || c == ' ')

/-- After a `cancel`/`refund` match, try to match `.{0,20}order`:
either `order` starts here, or consume one `.`-matchable character
(budget permitting) and continue. -/
def gapThenOrder : Nat → List Char → Bool
  | budget, cs =>
      if "order".toList.isPrefixOf cs then true
      else
        match budget, cs with
        | 0, _ => false
        | _, [] => false
        | b + 1, c :: rest => jsDot c && gapThenOrder b rest

/-- Regex `/(cancel|refund).{0,20}order/.test`: some position starts with
`cancel` or `refund` (both 6 characters) followed within 20
non-line-terminator characters by `order`. -/
def matchCancelOrder : List Char → Bool
  | [] => false
  | c :: rest =>
      (("cancel".toList.isPrefixOf (c :: rest) ||
          "refund".toList.isPrefixOf (c :: rest)) &&
        gapThenOrder 20 ((c :: rest).drop 6)) ||
      matchCancelOrder rest

/-- Substring test, i.e. `/pat/.test` for a literal pattern. -/
def containsSub (pat : List Char) : List Char → Bool
  | [] => pat.isPrefixOf ([] : List Char)
  | c :: rest => pat.isPrefixOf (c :: rest) || containsSub pat rest

/-- The three heuristic trigger conditions over the lower-cased
content. -/
def condCancel (lower : List Char) : Bool := matchCancelOrder lower

def condUpdate (lower : List Char) : Bool :=
  (containsSub "change".toList lower || containsSub "update".toList lower) &&
  (containsSub "address".toList lower || containsSub "shipping".toList lower)

def condResend (lower : List Char) : Bool :=
  containsSub "resend".toList lower || containsSub "replacement".toList lower

/-- Lowercasing `content.toLowerCase()` (ASCII, as the heuristic patterns are). -/
def lowerOf (content : String) : List Char :=
  content.toList.map Char.toLower

/-- The heuristic fallback body of `proposeFromEmail`: lower-case the
content and push at most one action per matched rule, in source order.
`uuid i` models the `i`-th `randomUUID()` call. -/
def heuristicActions (uuid : Nat → String) (content : String) :
    List ProposedAction :=
  let lower := lowerOf content
  let l1 : List ProposedAction :=
    if condCancel lower then
      [⟨uuid 0, "cancel_order",
        "Customer requests to cancel/refund an order."⟩]
    else []
  let l2 : List ProposedAction :=
    if condUpdate lower then
      [⟨uuid l1.length, "update_address",
        "Customer requests a shipping address update."⟩]
    else []
  let l3 : List ProposedAction :=
    if condResend lower then
      [⟨uuid (l1.length + l2.length), "resend_order",
        "Customer requests a resend/replacement."⟩]
    else []
  l1 ++ l2 ++ l3

/-- Generator `proposeFromEmail`: when a truthy LLM api key is configured the LLM
path runs; `llmActions` models its net effect — `none` when the request
failed, returned no content, or did not parse, `some acts` for the
coerced allowed-action list. A successful non-empty list is returned
as-is; everything else falls back to the heuristics. -/
def proposeFromEmail (llmApiKey : Option String)
    (llmActions : Option (List ProposedAction)) (uuid : Nat → String)
    (content : String) : List ProposedAction :=
  match llmApiKey with
  | some k =>
      if k ≠ "" then
        match llmActions with
        | some acts => if acts.length ≠ 0 then acts else heuristicActions uuid content
        | none => heuristicActions uuid content
      else heuristicActions uuid content
  | none => heuristicActions uuid content

end Agent

namespace SecureStore

/-- A byte of a Node `Buffer`. -/
abbrev Byte := Fin 256

def b64Alphabet : List Char :=
  "ABCDEFGHIJKLMNOPQRSTUVWXYZabcdefghijklmnopqrstuvwxyz0123456789+/".toList

def b64Char (n : Nat) : Char := b64Alphabet.getD n '?'

def b64Index? (c : Char) : Option (Fin 64) :=
  (List.finRange 64).find? (fun n => b64Char n.val == c)

def byteA (n1 n2 : Fin 64) : Byte :=
  ⟨n1.val * 4 + n2.val / 16, by have := n1.isLt; have := n2.isLt; omega⟩

def byteB (n2 n3 : Fin 64) : Byte :=
  ⟨n2.val % 16 * 16 + n3.val / 4, by have := n3.isLt; omega⟩

def byteC (n3 n4 : Fin 64) : Byte :=
  ⟨n3.val % 4 * 64 + n4.val, by have := n4.isLt; omega⟩

/-- Encoder `Buffer.prototype.toString("base64")`: standard alphabet with
padding. -/
def base64Encode : List Byte → List Char
  | [] => []
  | [b1] => [b64Char (b1.val / 4), b64Char (b1.val % 4 * 16), '=', '=']
  | [b1, b2] =>
      [b64Char (b1.val / 4), b64Char (b1.val % 4 * 16 + b2.val / 16),
        b64Char (b2.val % 16 * 4), '=']
  | b1 :: b2 :: b3 :: rest =>
      b64Char (b1.val / 4) :: b64Char (b1.val % 4 * 16 + b2.val / 16) ::
      b64Char (b2.val % 16 * 4 + b3.val / 64) :: b64Char (b3.val % 64) ::
      base64Encode rest

/-- Decoder `Buffer.from(s, "base64")` on the well-formed strings the encoder
produces (4-character groups, padding only in a final group). -/
def base64Decode : List Char → Option (List Byte)
  | [] => some []
  | c1 :: c2 :: c3 :: c4 :: rest =>
      if c3 = '=' ∧ c4 = '=' then
        if rest.isEmpty then
          match b64Index? c1, b64Index? c2 with
          | some n1, some n2 => some [byteA n1 n2]
          | _, _ => none
        else none
      else if c4 = '=' then
        if rest.isEmpty then
          match b64Index? c1, b64Index? c2, b64Index? c3 with
          | some n1, some n2, some n3 => some [byteA n1 n2, byteB n2 n3]
          | _, _, _ => none
        else none
      else
        match b64Index? c1, b64Index? c2, b64Index? c3, b64Index? c4,
            base64Decode rest with
        | some n1, some n2, some n3, some n4, some bs =>
            some (byteA n1 n2 :: byteB n2 n3 :: byteC n3 n4 :: bs)
        | _, _, _, _, _ => none
  | _ => none

/-- Hex digit value, by ASCII code point (`0`–`9`, `a`–`f`, `A`–`F`). -/
def hexDigit? (c : Char) : Option (Fin 16) :=
  let n := c.toNat
  if h : 48 ≤ n ∧ n ≤ 57 then some ⟨n - 48, by omega⟩
  else if h : 97 ≤ n ∧ n ≤ 102 then some ⟨n - 97 + 10, by omega⟩
  else if h : 65 ≤ n ∧ n ≤ 70 then some ⟨n - 65 + 10, by omega⟩
  else none

/-- Decoder `Buffer.from(s, "hex")`: consume hex-digit pairs, stopping at the
first invalid pair or lone trailing character. -/
def hexDecode : List Char → List Byte
  | c1 :: c2 :: rest =>
      match hexDigit? c1, hexDigit? c2 with
      | some h, some l =>
          ⟨h.val * 16 + l.val, by have := h.isLt; have := l.isLt; omega⟩ ::
            hexDecode rest
      | _, _ => []
  | _ => []

def masterKeyError : String := "MASTER_KEY must be 32-byte hex (64 chars)"

/-- Loader `getKey`: decode the hex MASTER_KEY and require exactly 32 bytes. -/
def getKey (masterKey : String) : Except String (List Byte) :=
  let key := hexDecode masterKey.toList
  if key.length = 32 then .ok key else .error masterKeyError

/-- The AES-256-GCM primitive of `node:crypto`, as an abstract cipher:
`enc key iv plaintext = (ciphertext, authTag)` and
`dec key iv tag data` recovers the plaintext or fails authentication. -/
structure GcmCipher where
  enc : List Byte → List Byte → List Byte → List Byte × List Byte
  dec : List Byte → List Byte → List Byte → List Byte → Option (List Byte)

/-- The library contract the model relies on: GCM emits a 16-byte tag
and decryption inverts encryption under the same key and IV. -/
def GcmSound (C : GcmCipher) : Prop :=
  ∀ key iv pt, (C.enc key iv pt).2.length = 16 ∧
    C.dec key iv (C.enc key iv pt).2 (C.enc key iv pt).1 = some pt

/-- Function `encrypt`: check the key, run GCM with the 12-byte random IV
(passed in as `iv`), and pack `iv | tag | ciphertext` as base64. -/
def encrypt (C : GcmCipher) (masterKey : String) (iv pt : List Byte) :
    Except String (List Char) :=
  match getKey masterKey with
  | .error e => .error e
  | .ok key =>
      let enct := C.enc key iv pt
      .ok (base64Encode (iv ++ enct.2 ++ enct.1))

/-- Function `decrypt`: check the key, base64-decode the blob, split it as
`[0,12) | [12,28) | [28,…)` (with `subarray`'s clamping), and run GCM
decryption; an authentication failure surfaces as the thrown error. -/
def decrypt (C : GcmCipher) (masterKey : String) (blob : List Char) :
    Except String (List Byte) :=
  match getKey masterKey with
  | .error e => .error e
  | .ok key =>
      let buff := (base64Decode blob).getD []
      let iv := buff.take 12
      let tag := (buff.drop 12).take 16
      let data := buff.drop 28
      match C.dec key iv tag data with
      | some pt => .ok pt
      | none => .error "Unsupported state or unable to authenticate data"

end SecureStore

namespace Gmail

/-- The settings columns `pollForUser` reads.  The history cursor is
stored as text and read through `BigInt`; the model carries the parsed
integer (a non-numeric cursor makes the history block throw, which is
the same as an absent cursor for the control flow). -/
structure Settings where
  gmailAutoPullEnabled : Bool
  gmailLabelQuery : Option String
  gmailLastHistoryId : Option Nat
  deriving Repr, DecidableEq

/-- An `email` row (the columns the sync logic keys on:
the unique index is `(userId, gmailMessageId)`). -/
structure EmailRow where
  id : String
  userId : String
  gmailMessageId : String
  historyId : Option Nat
  deriving Repr, DecidableEq

/-- A `proposal` row (the unique index is
`(emailId, actionType, payloadHash)`). -/
structure PropRow where
  id : String
  emailId : String
  userId : String
  actionType : String
  payloadHash : String
  deriving Repr, DecidableEq

structure Db where
  emails : List EmailRow
  proposals : List PropRow
  deriving Repr, DecidableEq

/-- One entry of a history page: `BigInt(h.id)` (`none` when it does
not parse) and the ids under `messagesAdded`. -/
structure HistRecord where
  id : Option Nat
  messagesAdded : List String
  deriving Repr

/-- Outcome of one history-page request:
the fetch threw (the surrounding `try` then discards the whole delta),
returned `!res.ok` (break out of the page loop), or returned a page. -/
inductive HistResp where
  | threw
  | notOk
  | okPage (records : List HistRecord) (hasNext : Bool)

/-- A fetched full message: its `historyId` and the content handed to
the proposal bridge (`[snippet, bodyText].filter(Boolean).join("\n\n")`). -/
structure Msg where
  historyId : Option Nat
  content : String
  deriving Repr, DecidableEq

/-- One action proposed by the bridge: the optional model-provided id
(`p.id || randomUUID()`), the action type, and the payload hash
(`sha256(JSON.stringify(payload))`). -/
structure PropItem where
  pid : Option String
  actionType : String
  payloadHash : String
  deriving Repr, DecidableEq

/-- The external world of one `pollForUser` run.  All oracles are fixed
functions: the run is deterministic relative to them. -/
structure Env where
  histResp : Nat → HistResp
  listResp : String → Nat → Option (List String)
  getMsg : String → Option Msg
  propose : String → Option (List PropItem)
  uuid : Nat → String

/-- Insertion `ids.add(m.id)` on a JS `Set`, kept in insertion order. -/
def addId (acc : List String) (id : String) : List String :=
  if acc.contains id then acc else acc ++ [id]

/-- Process one history record: raise `maxHistorySeen` and collect the
`messagesAdded` ids. -/
def procRecord (st : List String × Nat) (r : HistRecord) : List String × Nat :=
  let maxSeen := match r.id with
    | some hid => if hid > st.2 then hid else st.2
    | none => st.2
  (r.messagesAdded.foldl addId st.1, maxSeen)

/-- Result of the history page loop. -/
structure HistAcc where
  ids : List String
  maxSeen : Nat
  pagesUsed : Nat
  threw : Bool
  deriving Repr, DecidableEq

/-- The `for (let page = 0; page < 5; page++)` loop: fetch a page, break
on a non-ok response, collect ids and the max history id, continue while
a `nextPageToken` is present.  A thrown fetch aborts the whole block,
discarding the ids collected so far. -/
def collectHistoryGo (env : Env) (cursor : Nat) :
    Nat → Nat → List String → Nat → HistAcc
  | page, 0, ids, maxSeen => ⟨ids, maxSeen, page, false⟩
  | page, fuel + 1, ids, maxSeen =>
      match env.histResp page with
      | .threw => ⟨[], cursor, page + 1, true⟩
      | .notOk => ⟨ids, maxSeen, page + 1, false⟩
      | .okPage records hasNext =>
          let st := records.foldl procRecord (ids, maxSeen)
          if hasNext then collectHistoryGo env cursor (page + 1) fuel st.1 st.2
          else ⟨st.1, st.2, page + 1, false⟩

/-- The history delta starting at `cursor` (`maxHistorySeen` starts at
the cursor itself). -/
def collectHistory (env : Env) (cursor : Nat) : HistAcc :=
  collectHistoryGo env cursor 0 5 [] cursor

/-- Where the ids of a run came from. -/
inductive IdSource where
  | history (ids : List String)
  | list (q : String) (maxResults : Nat) (ids : List String)
  | listFailed (q : String) (maxResults : Nat)
  deriving Repr, DecidableEq

/-- Fallback `settings?.gmailLabelQuery ?? env.GMAIL_LABEL_QUERY`. -/
def labelQueryOf (envDefault : String) (s : Settings) : String :=
  s.gmailLabelQuery.getD envDefault

/-- The delta ids as the control flow sees them: a thrown history fetch
discards everything collected. -/
def effectiveHistIds (env : Env) (cursor : Nat) : List String :=
  if (collectHistory env cursor).threw then [] else (collectHistory env cursor).ids

/-- The id-resolution phase: history delta when a cursor is stored,
falling back to the label-query list when the delta yields no ids.
Returns the source, the `nextStartHistoryId` after this phase, and the
number of history pages fetched. -/
def resolveIds (env : Env) (envDefault : String) (s : Settings)
    (maxResults : Nat) : IdSource × Option Nat × Nat :=
  let q := labelQueryOf envDefault s
  match s.gmailLastHistoryId with
  | some c =>
      let acc := collectHistory env c
      let ids := if acc.threw then [] else acc.ids
      if ids.isEmpty then
        match env.listResp q maxResults with
        | some l => (.list q maxResults l, some c, acc.pagesUsed)
        | none => (.listFailed q maxResults, some c, acc.pagesUsed)
      else (.history ids, some acc.maxSeen, acc.pagesUsed)
  | none =>
      match env.listResp q maxResults with
      | some l => (.list q maxResults l, none, 0)
      | none => (.listFailed q maxResults, none, 0)

def emailExists (db : Db) (userId mid : String) : Bool :=
  db.emails.any (fun r => r.userId == userId && r.gmailMessageId == mid)

/-- Model of `INSERT ... ON CONFLICT (user_id, gmail_message_id) DO NOTHING`. -/
def insertEmailNoConflict (db : Db) (row : EmailRow) : Db :=
  if emailExists db row.userId row.gmailMessageId then db
  else { db with emails := db.emails ++ [row] }

def propExists (db : Db) (emailId actionType payloadHash : String) : Bool :=
  db.proposals.any (fun r =>
    r.emailId == emailId && r.actionType == actionType &&
      r.payloadHash == payloadHash)

/-- Model of `INSERT ... ON CONFLICT (email_id, action_type, payload_hash)
DO NOTHING`. -/
def insertPropNoConflict (db : Db) (row : PropRow) : Db :=
  if propExists db row.emailId row.actionType row.payloadHash then db
  else { db with proposals := db.proposals ++ [row] }

/-- State threaded through the per-message loop. -/
structure PersistState where
  db : Db
  uuidCtr : Nat
  fetched : Nat
  proposedCnt : Nat
  maxHistMsgs : Option Nat
  fetchCalls : List String
  deriving Repr, DecidableEq

/-- Insert one bridge proposal (`p.id || randomUUID()` for the row id). -/
def insertOneProp (env : Env) (userId emailId : String)
    (st : PersistState) (p : PropItem) : PersistState :=
  let idAndCtr : String × Nat :=
    match p.pid with
    | some s => if s ≠ "" then (s, st.uuidCtr) else (env.uuid st.uuidCtr, st.uuidCtr + 1)
    | none => (env.uuid st.uuidCtr, st.uuidCtr + 1)
  { st with
    db := insertPropNoConflict st.db
      ⟨idAndCtr.1, emailId, userId, p.actionType, p.payloadHash⟩,
    uuidCtr := idAndCtr.2 }

/-- The body of the per-message loop: dedup check before the
per-message fetch, full fetch, email insert, proposal generation and
inserts (bridge errors swallowed). -/
def processMessage (env : Env) (userId : String) (st : PersistState)
    (mid : String) : PersistState :=
  if emailExists st.db userId mid then st
  else
    let st1 := { st with fetchCalls := st.fetchCalls ++ [mid] }
    match env.getMsg mid with
    | none => st1
    | some msg =>
        let maxHist : Option Nat :=
          match msg.historyId, st1.maxHistMsgs with
          | some h, some m => some (if h > m then h else m)
          | some h, none => some h
          | none, m => m
        let emailId := env.uuid st1.uuidCtr
        let db1 := insertEmailNoConflict st1.db
          ⟨emailId, userId, mid, msg.historyId⟩
        let st2 : PersistState :=
          ⟨db1, st1.uuidCtr + 1, st1.fetched + 1, st1.proposedCnt,
            maxHist, st1.fetchCalls⟩
        match env.propose msg.content with
        | none => st2
        | some items =>
            if items.length ≠ 0 then
              items.foldl (insertOneProp env userId emailId)
                { st2 with proposedCnt := st2.proposedCnt + items.length }
            else st2

/-- The whole persistence phase over a resolved id list. -/
def persistAll (env : Env) (userId : String) (db : Db)
    (ids : List String) : PersistState :=
  ids.foldl (processMessage env userId) ⟨db, 0, 0, 0, none, []⟩

/-- Token checks before the sync (`tokenRow` found, and an access token
recovered from the decrypted JSON). -/
structure TokenState where
  hasToken : Bool
  hasAccessToken : Bool
  deriving Repr, DecidableEq

inductive PollOutcome where
  | disabledRun
  | noToken
  | noAccessToken
  | listFailed
  | success (fetched proposedCnt : Nat)
  deriving Repr, DecidableEq

structure PollResult where
  outcome : PollOutcome
  db : Db
  settingsCursor : Option Nat
  fetchCalls : List String
  pagesUsed : Nat
  source : Option IdSource
  deriving Repr, DecidableEq

/-- Sync `pollForUser`: settings gate, token gate, id resolution, per-message
persistence, and the final settings update
(`gmailLastHistoryId: newHistoryId ?? settings?.gmailLastHistoryId ?? null`
where `newHistoryId` is the max inserted-message history id when one
exists, else the post-delta `nextStartHistoryId`). -/
def pollForUser (env : Env) (envDefault : String) (tok : TokenState)
    (s : Settings) (db : Db) (userId : String) (maxResults : Nat) :
    PollResult :=
  if !s.gmailAutoPullEnabled then
    ⟨.disabledRun, db, s.gmailLastHistoryId, [], 0, none⟩
  else if !tok.hasToken then
    ⟨.noToken, db, s.gmailLastHistoryId, [], 0, none⟩
  else if !tok.hasAccessToken then
    ⟨.noAccessToken, db, s.gmailLastHistoryId, [], 0, none⟩
  else
    let r := resolveIds env envDefault s maxResults
    match r.1 with
    | .listFailed _ _ =>
        ⟨.listFailed, db, s.gmailLastHistoryId, [], r.2.2, some r.1⟩
    | .history ids =>
        let st := persistAll env userId db ids
        let newCursor : Option Nat :=
          match st.maxHistMsgs with
          | some h => some h
          | none => match r.2.1 with
            | some c => some c
            | none => s.gmailLastHistoryId
        ⟨.success st.fetched st.proposedCnt, st.db, newCursor,
          st.fetchCalls, r.2.2, some r.1⟩
    | .list _ _ ids =>
        let st := persistAll env userId db ids
        let newCursor : Option Nat :=
          match st.maxHistMsgs with
          | some h => some h
          | none => match r.2.1 with
            | some c => some c
            | none => s.gmailLastHistoryId
        ⟨.success st.fetched st.proposedCnt, st.db, newCursor,
          st.fetchCalls, r.2.2, some r.1⟩

end Gmail

namespace Poll

/-- The in-process guard state of the `poll` server function: the
`activePolls` key set and the per-user `settings.lastPollAt` store
(epoch milliseconds). -/
structure GuardState where
  active : List String
  lastPollAt : List (String × Int)
  deriving Repr, DecidableEq

/-- Throttle input `settings?.lastPollAt ? new Date(settings.lastPollAt).getTime() : 0`. -/
def lastOf (s : GuardState) (u : String) : Int :=
  match s.lastPollAt.find? (fun p => p.1 == u) with
  | some p => p.2
  | none => 0

inductive Decision where
  | throttled
  | concurrent
  | run
  deriving Repr, DecidableEq

/-- The entry of `poll` up to starting `pollForUser`: the 5-second
throttle against `lastPollAt` first, then the `activePolls` concurrency
guard; only a `run` decision registers the user as in flight.
`throttled` models `{ok:false, code:'POLL_THROTTLED'}` and `concurrent`
models `{ok:false, code:'POLL_CONCURRENT'}`. -/
def pollEnter (s : GuardState) (u : String) (now : Int) :
    Decision × GuardState :=
  let last := lastOf s u
  if last ≠ 0 ∧ now - last < 5000 then (.throttled, s)
  else if s.active.contains u then (.concurrent, s)
  else (.run, { s with active := u :: s.active })

/-- The `finally { activePolls.delete(userId) }` when the in-flight
promise settles (fulfilled or rejected). -/
def pollSettle (s : GuardState) (u : String) : GuardState :=
  { s with active := s.active.erase u }

end Poll

section Fixtures

/-- A trivially sound stand-in cipher used to instantiate the abstract
GCM primitive in witnesses: identity "encryption" with a constant
16-byte tag. -/
def idCipher : SecureStore.GcmCipher where
  enc := fun _ _ pt => (pt, List.replicate 16 (0 : SecureStore.Byte))
  dec := fun _ _ tag data =>
    if tag = List.replicate 16 (0 : SecureStore.Byte) then some data else none

theorem idCipher_sound : SecureStore.GcmSound idCipher := by
  intro key iv pt
  constructor
  · simp [idCipher]
  · simp [idCipher]

/-- A 64-character hex master key for witnesses. -/
def witnessKey : String :=
  "000102030405060708090a0b0c0d0e0f101112131415161718191a1b1c1d1e1f"

/-- Environment exhibiting a backwards cursor move: the stored cursor is
1000, the history delta is ok but empty, the fallback list returns one
unseen message whose own `historyId` is 5. -/
def c10Env : Gmail.Env where
  histResp := fun _ => .okPage [] false
  listResp := fun _ _ => some ["m1"]
  getMsg := fun _ => some ⟨some 5, "hello"⟩
  propose := fun _ => some []
  uuid := fun n => String.mk (List.replicate (n + 1) 'v')

def c10Settings : Gmail.Settings :=
  ⟨true, some "label:support", some 1000⟩

/-- Same environment but with a stored cursor below every inserted
message's historyId (for the monotone case). -/
def c10bSettings : Gmail.Settings :=
  ⟨true, some "label:support", some 3⟩

/-- A proposal table with one reviewable, one approved and one terminal
row, for the C1 witness. -/
def c1Db : Proposals.Db :=
  ⟨[⟨"p1", "u", "cancel_order", .proposed⟩,
    ⟨"p2", "u", "cancel_order", .approved⟩,
    ⟨"p3", "u", "cancel_order", .executed⟩], []⟩

/-- UUID supply for witnesses. -/
def fixUuid : Nat → String := fun n => String.mk (List.replicate (n + 1) 'u')

/-- Concrete IV and plaintext bytes for the C6 witness. -/
def c6Iv : List SecureStore.Byte := List.replicate 12 0

def c6Plain : List SecureStore.Byte := [104, 105, 33]

/-- Concrete jitter samples for the C2 witness. -/
def c2Jitter : Nat → Nat := fun _ => 7

/-- Concrete outcomes for the C2 witness: a 503, then a 200. -/
def c2Outcomes : Nat → Fetch.Outcome :=
  fun i => if i = 0 then .resp ⟨503, 0⟩ else .resp ⟨200, 0⟩

/-- Concrete outcomes for the C9 witness: a thrown fetch, then a 200. -/
def c9Outcomes : Nat → Fetch.Outcome :=
  fun i => if i = 0 then .err else .resp ⟨200, 0⟩

end Fixtures

theorem lookupHeader_append_miss (hs : List (String × String)) (k v : String)
    (h : Fetch.lookupHeader hs k = none) :
    Fetch.lookupHeader (hs ++ [(k, v)]) k = some v := by
  induction hs with
  | nil => simp [Fetch.lookupHeader]
  | cons p rest ih =>
      rw [List.cons_append]
      by_cases hk : (p.1 == k) = true
      · exfalso
        simp [Fetch.lookupHeader, hk] at h
      · have hk' : (p.1 == k) = false := by simpa using hk
        simp only [Fetch.lookupHeader, hk', Bool.false_eq_true, if_false] at h ⊢
        exact ih h

/-- Full characterization of the `runFrom` loop: attempts continue
exactly while outcomes are retryable and fuel remains; every attempt
sends the same headers; the waits are the per-attempt `waitFor`
amounts; the settling outcome is returned or rethrown. -/
theorem runFrom_spec (backoffMs : Nat) (jitter : Nat → Nat)
    (outcomes : Nat → Fetch.Outcome) (hs : List (String × String)) :
    ∀ fuel attempt,
      Fetch.firstSettled outcomes attempt fuel ≥ attempt ∧
      Fetch.firstSettled outcomes attempt fuel ≤ attempt + fuel ∧
      (Fetch.runFrom backoffMs jitter outcomes hs attempt fuel).sent =
        List.replicate (Fetch.firstSettled outcomes attempt fuel - attempt + 1) hs ∧
      (Fetch.runFrom backoffMs jitter outcomes hs attempt fuel).waits =
        (List.range' attempt (Fetch.firstSettled outcomes attempt fuel - attempt)).map
          (fun i => Fetch.waitFor backoffMs jitter i (outcomes i)) ∧
      ((Fetch.runFrom backoffMs jitter outcomes hs attempt fuel).result =
        match outcomes (Fetch.firstSettled outcomes attempt fuel) with
        | .err => .error ()
        | .resp r => .ok r) ∧
      (∀ i, attempt ≤ i → i < Fetch.firstSettled outcomes attempt fuel →
        Fetch.retryable (outcomes i) = true) ∧
      (Fetch.firstSettled outcomes attempt fuel < attempt + fuel →
        Fetch.retryable (outcomes (Fetch.firstSettled outcomes attempt fuel)) = false) := by
  intro fuel
  induction fuel with
  | zero =>
      intro attempt
      have hk : Fetch.firstSettled outcomes attempt 0 = attempt := rfl
      rw [hk]
      refine ⟨Nat.le_refl _, by omega, ?_, ?_, ?_,
        fun i h1 h2 => absurd h2 (by omega), fun h => absurd h (by omega)⟩
      · cases houtcome : outcomes attempt <;> simp [Fetch.runFrom, houtcome]
      · cases houtcome : outcomes attempt <;> simp [Fetch.runFrom, houtcome]
      · cases houtcome : outcomes attempt <;> simp [Fetch.runFrom, houtcome]
  | succ fuel ih =>
      intro attempt
      by_cases hret : Fetch.retryable (outcomes attempt) = true
      · have hk : Fetch.firstSettled outcomes attempt (fuel + 1) =
            Fetch.firstSettled outcomes (attempt + 1) fuel := by
          simp [Fetch.firstSettled, hret]
        obtain ⟨ih1, ih2, ih3, ih4, ih5, ih6, ih7⟩ := ih (attempt + 1)
        have hrun : Fetch.runFrom backoffMs jitter outcomes hs attempt (fuel + 1) =
            ⟨hs :: (Fetch.runFrom backoffMs jitter outcomes hs (attempt + 1) fuel).sent,
              Fetch.waitFor backoffMs jitter attempt (outcomes attempt) ::
                (Fetch.runFrom backoffMs jitter outcomes hs (attempt + 1) fuel).waits,
              (Fetch.runFrom backoffMs jitter outcomes hs (attempt + 1) fuel).result⟩ := by
          cases houtcome : outcomes attempt with
          | err => simp [Fetch.runFrom, houtcome, Fetch.waitFor]
          | resp r =>
              have : Fetch.shouldRetryResponse r = true := by
                simpa [Fetch.retryable, houtcome] using hret
              simp [Fetch.runFrom, houtcome, this]
        refine ⟨by omega, by omega, ?_, ?_, ?_, ?_, ?_⟩

        · rw [hrun, hk]
          simp only [ih3]
          rw [show Fetch.firstSettled outcomes (attempt + 1) fuel - attempt + 1 =
            (Fetch.firstSettled outcomes (attempt + 1) fuel - (attempt + 1) + 1) + 1
            from by omega]
          simp [List.replicate_succ]
        · rw [hrun, hk]
          simp only [ih4]
          rw [show Fetch.firstSettled outcomes (attempt + 1) fuel - attempt =
            (Fetch.firstSettled outcomes (attempt + 1) fuel - (attempt + 1)) + 1
            from by omega]
          rw [List.range'_succ]
          simp
        · rw [hrun, hk]; exact ih5
        · rw [hk]
          intro i hi1 hi2
          rcases Nat.eq_or_lt_of_le hi1 with heq | hlt
          · exact heq ▸ hret
          · exact ih6 i hlt hi2
        · rw [hk]
          intro hlt
          exact ih7 (by omega)
      · have hretf : Fetch.retryable (outcomes attempt) = false := by
          simpa using hret
        have hk : Fetch.firstSettled outcomes attempt (fuel + 1) = attempt := by
          simp [Fetch.firstSettled, hretf]
        cases houtcome : outcomes attempt with
        | err => simp [Fetch.retryable, houtcome] at hretf
        | resp r =>
            have hsr : Fetch.shouldRetryResponse r = false := by
              simpa [Fetch.retryable, houtcome] using hretf
            rw [hk]
            refine ⟨Nat.le_refl _, by omega, ?_, ?_, ?_,
              fun i h1 h2 => absurd h2 (by omega), fun _ => hretf⟩
            · simp [Fetch.runFrom, houtcome, hsr]
            · simp [Fetch.runFrom, houtcome, hsr]
            · simp [Fetch.runFrom, houtcome, hsr]

/-- C2: `fetchWithRetry` retries exactly the attempts that threw or
returned status 429/5xx, makes at most `retries` (default 2) additional
attempts after the first, waits `Retry-After` seconds when the retried
response carries a positive `Retry-After` value and otherwise
`backoffMs * 2 ^ attempt` plus a jitter strictly below 250 ms, returns
any other response immediately, and returns the final response (or
rethrows the final error) after the last permitted attempt. -/
theorem fetchWithRetry_retry_semantics (opts : Fetch.Opts) (uuid : String)
    (jitter : Nat → Nat) (outcomes : Nat → Fetch.Outcome)
    (hjit : ∀ i, jitter i < 250) :
    (Fetch.fetchWithRetry opts uuid jitter outcomes).sent.length =
      Fetch.firstSettled outcomes 0 (opts.retries.getD 2) + 1 ∧
    Fetch.firstSettled outcomes 0 (opts.retries.getD 2) ≤ opts.retries.getD 2 ∧
    (∀ i, i < Fetch.firstSettled outcomes 0 (opts.retries.getD 2) →
      Fetch.retryable (outcomes i) = true) ∧
    (Fetch.firstSettled outcomes 0 (opts.retries.getD 2) < opts.retries.getD 2 →
      Fetch.retryable (outcomes (Fetch.firstSettled outcomes 0 (opts.retries.getD 2))) = false) ∧
    ((Fetch.fetchWithRetry opts uuid jitter outcomes).result =
      match outcomes (Fetch.firstSettled outcomes 0 (opts.retries.getD 2)) with
      | .err => .error ()
      | .resp r => .ok r) ∧
    (Fetch.fetchWithRetry opts uuid jitter outcomes).waits =
      (List.range (Fetch.firstSettled outcomes 0 (opts.retries.getD 2))).map
        (fun i => Fetch.waitFor (opts.backoffMs.getD 500) jitter i (outcomes i)) ∧
    (∀ i r, outcomes i = .resp r → 0 < r.retryAfter →
      Fetch.waitFor (opts.backoffMs.getD 500) jitter i (outcomes i) =
        r.retryAfter.toNat * 1000) ∧
    (∀ i r, outcomes i = .resp r → ¬ 0 < r.retryAfter →
      ∃ j < 250, Fetch.waitFor (opts.backoffMs.getD 500) jitter i (outcomes i) =
        opts.backoffMs.getD 500 * 2 ^ i + j) ∧
    (∀ i, outcomes i = .err →
      ∃ j < 250, Fetch.waitFor (opts.backoffMs.getD 500) jitter i (outcomes i) =
        opts.backoffMs.getD 500 * 2 ^ i + j) := by
  obtain ⟨h1, h2, h3, h4, h5, h6, h7⟩ :=
    runFrom_spec (opts.backoffMs.getD 500) jitter outcomes
      (Fetch.baseHeaders opts uuid) (opts.retries.getD 2) 0
  refine ⟨?_, by omega, fun i hi => h6 i (by omega) hi, fun h => h7 (by omega),
    h5, ?_, ?_, ?_, ?_⟩
  · show (Fetch.runFrom _ _ _ _ 0 _).sent.length = _
    rw [h3]; simp
  · show (Fetch.runFrom _ _ _ _ 0 _).waits = _
    rw [h4]; simp [List.range_eq_range']
  · intro i r hr hpos
    simp [Fetch.waitFor, hr, hpos]
  · intro i r hr hpos
    exact ⟨jitter i, hjit i, by simp [Fetch.waitFor, hr, hpos]⟩
  · intro i hr
    exact ⟨jitter i, hjit i, by simp [Fetch.waitFor, hr]⟩

/-- Witness for C2: default options, first attempt returns 503 and the
second a 200; one retry happens with the backoff-plus-jitter wait. -/
theorem fetchWithRetry_retry_semantics_witness :
    (Fetch.fetchWithRetry ⟨none, [], none, none, none⟩ "uu" c2Jitter
      c2Outcomes).waits = [507] ∧
    (Fetch.fetchWithRetry ⟨none, [], none, none, none⟩ "uu" c2Jitter
      c2Outcomes).sent.length = 2 := by
  have h := fetchWithRetry_retry_semantics ⟨none, [], none, none, none⟩ "uu"
    c2Jitter c2Outcomes (fun i => by norm_num [c2Jitter])
  have hk : Fetch.firstSettled c2Outcomes 0
      ((⟨none, [], none, none, none⟩ : Fetch.Opts).retries.getD 2) = 1 := by decide
  refine ⟨?_, ?_⟩
  · have hw := h.2.2.2.2.2.1
    rw [hk] at hw
    rw [hw]
    decide
  · have hl := h.1
    rw [hk] at hl
    simpa using hl

/-- C9: for a mutating method (POST/PUT/PATCH/DELETE) whose headers do
not already contain `X-Idempotency-Key`, every attempt of the call
carries the same `X-Idempotency-Key` header — the caller-supplied
`idempotencyKey` when one is given (non-empty), otherwise the fresh
UUID generated for this call; for non-mutating methods the headers are
sent unchanged. -/
theorem fetchWithRetry_idempotency_key (opts : Fetch.Opts) (uuid : String)
    (jitter : Nat → Nat) (outcomes : Nat → Fetch.Outcome)
    (hno : Fetch.lookupHeader opts.headers "X-Idempotency-Key" = none) :
    (Fetch.isMutating (opts.method.getD "GET") = true →
      ∀ key, (opts.idempotencyKey = some key ∧ key ≠ "") ∨
          (opts.idempotencyKey = none ∧ key = uuid) →
        ∀ hs ∈ (Fetch.fetchWithRetry opts uuid jitter outcomes).sent,
          Fetch.lookupHeader hs "X-Idempotency-Key" = some key) ∧
    (Fetch.isMutating (opts.method.getD "GET") = false →
      ∀ hs ∈ (Fetch.fetchWithRetry opts uuid jitter outcomes).sent,
        hs = opts.headers) := by
  have hsent : (Fetch.fetchWithRetry opts uuid jitter outcomes).sent =
      List.replicate
        (Fetch.firstSettled outcomes 0 (opts.retries.getD 2) - 0 + 1)
        (Fetch.baseHeaders opts uuid) :=
    (runFrom_spec (opts.backoffMs.getD 500) jitter outcomes
      (Fetch.baseHeaders opts uuid) (opts.retries.getD 2) 0).2.2.1
  constructor
  · intro hmut key hkey hs hmem
    rw [hsent] at hmem
    have hhs : hs = Fetch.baseHeaders opts uuid := (List.eq_of_mem_replicate hmem)
    have hbase : Fetch.baseHeaders opts uuid = opts.headers ++ [("X-Idempotency-Key", key)] := by
      rcases hkey with ⟨hk, hne⟩ | ⟨hk, hke⟩
      · simp [Fetch.baseHeaders, hmut, Fetch.truthyStr, hno, hk, hne]
      · simp [Fetch.baseHeaders, hmut, Fetch.truthyStr, hno, hk, hke]
    rw [hhs, hbase]
    exact lookupHeader_append_miss _ _ _ hno
  · intro hmut hs hmem
    rw [hsent] at hmem
    have hhs : hs = Fetch.baseHeaders opts uuid := (List.eq_of_mem_replicate hmem)
    rw [hhs]
    simp [Fetch.baseHeaders, hmut]

/-- Witness for C9: a POST with no pre-set header and no caller key gets
the generated UUID on both attempts of a retried call. -/
theorem fetchWithRetry_idempotency_key_witness :
    Fetch.lookupHeader
        ((Fetch.fetchWithRetry ⟨some "POST", [], none, none, none⟩ "uuid-1"
          c2Jitter c9Outcomes).sent.headD []) "X-Idempotency-Key" =
      some "uuid-1" := by
  have h := (fetchWithRetry_idempotency_key ⟨some "POST", [], none, none, none⟩
      "uuid-1" c2Jitter c9Outcomes rfl).1 (by decide) "uuid-1" (Or.inr ⟨rfl, rfl⟩)
  apply h
  decide

/-- C8: whenever no LLM api key is configured, or the LLM path failed or
produced no allowed actions, `proposeFromEmail` returns the heuristic
list over the lower-cased content: `cancel_order` iff
`/(cancel|refund).{0,20}order/` matches, then `update_address` iff both
`/change|update/` and `/address|shipping/` match, then `resend_order`
iff `/resend|replacement/` matches — each at most once, in this fixed
order, and the empty list when none match. -/
theorem proposeFromEmail_heuristic_fallback (llmApiKey : Option String)
    (llmActions : Option (List Agent.ProposedAction)) (uuid : Nat → String)
    (content : String)
    (hfb : llmApiKey = none ∨ llmApiKey = some "" ∨ llmActions = none ∨
      llmActions = some []) :
    (Agent.proposeFromEmail llmApiKey llmActions uuid content).map (·.actionType) =
      (if Agent.condCancel (Agent.lowerOf content) then ["cancel_order"] else []) ++
      (if Agent.condUpdate (Agent.lowerOf content) then ["update_address"] else []) ++
      (if Agent.condResend (Agent.lowerOf content) then ["resend_order"] else []) ∧
    ((Agent.proposeFromEmail llmApiKey llmActions uuid content).map (·.actionType)).Nodup ∧
    (Agent.condCancel (Agent.lowerOf content) = false →
      Agent.condUpdate (Agent.lowerOf content) = false →
      Agent.condResend (Agent.lowerOf content) = false →
        Agent.proposeFromEmail llmApiKey llmActions uuid content = []) := by
  have hheur : Agent.proposeFromEmail llmApiKey llmActions uuid content =
      Agent.heuristicActions uuid content := by
    rcases hfb with h | h | h | h
    · simp [Agent.proposeFromEmail, h]
    · simp [Agent.proposeFromEmail, h]
    · cases llmApiKey with
      | none => simp [Agent.proposeFromEmail]
      | some k =>
          by_cases hk : k = "" <;> simp [Agent.proposeFromEmail, h, hk]
    · cases llmApiKey with
      | none => simp [Agent.proposeFromEmail]
      | some k =>
          by_cases hk : k = "" <;> simp [Agent.proposeFromEmail, h, hk]
  rw [hheur]
  refine ⟨?_, ?_, ?_⟩
  · cases h1 : Agent.condCancel (Agent.lowerOf content) <;>
      cases h2 : Agent.condUpdate (Agent.lowerOf content) <;>
        cases h3 : Agent.condResend (Agent.lowerOf content) <;>
          simp [Agent.heuristicActions, h1, h2, h3]
  · cases h1 : Agent.condCancel (Agent.lowerOf content) <;>
      cases h2 : Agent.condUpdate (Agent.lowerOf content) <;>
        cases h3 : Agent.condResend (Agent.lowerOf content) <;>
          simp [Agent.heuristicActions, h1, h2, h3]
  · intro h1 h2 h3
    simp [Agent.heuristicActions, h1, h2, h3]

/-- Witness for C8: with no api key, an email asking to cancel an order
and change the shipping address yields exactly
`[cancel_order, update_address]`. -/
theorem proposeFromEmail_heuristic_fallback_witness :
    (Agent.proposeFromEmail none none fixUuid
      "Please cancel my order #123 and update the shipping address").map
        (·.actionType) = ["cancel_order", "update_address"] := by
  have h := proposeFromEmail_heuristic_fallback none none fixUuid
    "Please cancel my order #123 and update the shipping address" (Or.inl rfl)
  rw [h.1]
  decide

theorem b64Index_b64Char :
    ∀ n : Fin 64, SecureStore.b64Index? (SecureStore.b64Char n.val) = some n := by
  decide

theorem b64Char_ne_pad : ∀ n : Fin 64, ¬(SecureStore.b64Char n.val = '=') := by
  decide

theorem b64Index_of_lt (m : Nat) (h : m < 64) :
    SecureStore.b64Index? (SecureStore.b64Char m) = some ⟨m, h⟩ :=
  b64Index_b64Char ⟨m, h⟩

theorem b64Char_ne_pad' (m : Nat) (h : m < 64) :
    ¬(SecureStore.b64Char m = '=') :=
  b64Char_ne_pad ⟨m, h⟩

/-- Base64 decoding inverts encoding on every byte list. -/
theorem base64_roundtrip (bs : List SecureStore.Byte) :
    SecureStore.base64Decode (SecureStore.base64Encode bs) = some bs := by
  induction bs using SecureStore.base64Encode.induct with
  | case1 => rfl
  | case2 b1 =>
      have hb1 := b1.isLt
      have h1 : b1.val / 4 < 64 := by omega
      have h2 : b1.val % 4 * 16 < 64 := by omega
      simp only [SecureStore.base64Encode, SecureStore.base64Decode,
        b64Index_of_lt _ h1, b64Index_of_lt _ h2, List.isEmpty_nil, and_self,
        if_true]
      simp [SecureStore.byteA, Fin.ext_iff]
      omega
  | case3 b1 b2 =>
      have hb1 := b1.isLt
      have hb2 := b2.isLt
      have h1 : b1.val / 4 < 64 := by omega
      have h2 : b1.val % 4 * 16 + b2.val / 16 < 64 := by omega
      have h3 : b2.val % 16 * 4 < 64 := by omega
      simp only [SecureStore.base64Encode, SecureStore.base64Decode,
        b64Index_of_lt _ h1, b64Index_of_lt _ h2, b64Index_of_lt _ h3,
        b64Char_ne_pad' _ h3, List.isEmpty_nil, false_and, if_false, and_self,
        if_true]
      simp [SecureStore.byteA, SecureStore.byteB, Fin.ext_iff]
      constructor <;> omega
  | case4 b1 b2 b3 rest ih =>
      have hb1 := b1.isLt
      have hb2 := b2.isLt
      have hb3 := b3.isLt
      have h1 : b1.val / 4 < 64 := by omega
      have h2 : b1.val % 4 * 16 + b2.val / 16 < 64 := by omega
      have h3 : b2.val % 16 * 4 + b3.val / 64 < 64 := by omega
      have h4 : b3.val % 64 < 64 := by omega
      simp only [SecureStore.base64Encode, SecureStore.base64Decode,
        b64Index_of_lt _ h1, b64Index_of_lt _ h2, b64Index_of_lt _ h3,
        b64Index_of_lt _ h4, b64Char_ne_pad' _ h3, b64Char_ne_pad' _ h4,
        false_and, and_false, if_false, ih]
      simp [SecureStore.byteA, SecureStore.byteB, SecureStore.byteC, Fin.ext_iff]
      refine ⟨?_, ?_, ?_⟩ <;> omega

theorem hexDecode_length (cs : List Char)
    (hall : ∀ c ∈ cs, (SecureStore.hexDigit? c).isSome) :
    (SecureStore.hexDecode cs).length = cs.length / 2 := by
  induction cs using SecureStore.hexDecode.induct with
  | case1 c1 c2 rest h l hc1 hc2 ih =>
      simp only [SecureStore.hexDecode, hc1, hc2]
      have := ih (fun c hc => hall c (by simp [hc]))
      simp only [List.length_cons, this]
      omega
  | case2 c1 c2 rest hnot =>
      exfalso
      have h1 := hall c1 (by simp)
      have h2 := hall c2 (by simp)
      rw [Option.isSome_iff_exists] at h1 h2
      obtain ⟨v1, hv1⟩ := h1
      obtain ⟨v2, hv2⟩ := h2
      exact hnot v1 v2 hv1 hv2
  | case3 cs hne =>
      cases cs with
      | nil => rfl
      | cons c rest =>
          cases rest with
          | nil => simp [SecureStore.hexDecode]
          | cons c2 rest2 => exact (hne c c2 rest2 rfl).elim

/-- C6: with a MASTER_KEY decoding to exactly 32 bytes — in particular
any 64-hex-character key — `decrypt` inverts `encrypt` for every
plaintext, through the packed `iv (12) | tag (16) | ciphertext` base64
layout; with a key of any other decoded length both operations fail
with the MASTER_KEY error. `C` is the AES-256-GCM primitive, assumed
sound (tag length 16, decryption inverts encryption). -/
theorem encrypt_decrypt_master_key (C : SecureStore.GcmCipher)
    (hC : SecureStore.GcmSound C) (masterKey : String)
    (iv pt : List SecureStore.Byte) (hiv : iv.length = 12) :
    ((SecureStore.hexDecode masterKey.toList).length = 32 →
      ∃ blob, SecureStore.encrypt C masterKey iv pt = .ok blob ∧
        SecureStore.decrypt C masterKey blob = .ok pt) ∧
    (masterKey.toList.length = 64 →
      (∀ c ∈ masterKey.toList, (SecureStore.hexDigit? c).isSome) →
      (SecureStore.hexDecode masterKey.toList).length = 32) ∧
    ((SecureStore.hexDecode masterKey.toList).length ≠ 32 →
      SecureStore.encrypt C masterKey iv pt = .error SecureStore.masterKeyError ∧
      ∀ blob, SecureStore.decrypt C masterKey blob =
        .error SecureStore.masterKeyError) := by
  refine ⟨?_, ?_, ?_⟩
  · intro h32
    simp only [String.toList] at h32
    have hkey : SecureStore.getKey masterKey =
        .ok (SecureStore.hexDecode masterKey.data) := by
      simp [SecureStore.getKey, h32]
    set k := SecureStore.hexDecode masterKey.data with hk
    obtain ⟨htag, hdec⟩ := hC k iv pt
    refine ⟨SecureStore.base64Encode (iv ++ (C.enc k iv pt).2 ++ (C.enc k iv pt).1),
      ?_, ?_⟩
    · simp [SecureStore.encrypt, hkey]
    · simp only [SecureStore.decrypt, hkey]
      rw [base64_roundtrip, Option.getD_some, List.append_assoc]
      have hsplit2 : (iv ++ ((C.enc k iv pt).2 ++ (C.enc k iv pt).1)).drop 12 =
          (C.enc k iv pt).2 ++ (C.enc k iv pt).1 :=
        List.drop_left' hiv
      have hdrop28 : (iv ++ ((C.enc k iv pt).2 ++ (C.enc k iv pt).1)).drop 28 =
          (C.enc k iv pt).1 := by
        rw [show (28 : Nat) = 12 + 16 from rfl, ← List.drop_drop, hsplit2]
        exact List.drop_left' htag
      rw [List.take_left' hiv, hsplit2, List.take_left' htag, hdrop28, hdec]
  · intro h64 hall
    rw [hexDecode_length masterKey.toList hall, h64]
  · intro h32
    simp only [String.toList] at h32
    have hkey : SecureStore.getKey masterKey = .error SecureStore.masterKeyError := by
      simp [SecureStore.getKey, h32]
    exact ⟨by simp [SecureStore.encrypt, hkey],
      fun blob => by simp [SecureStore.decrypt, hkey]⟩

/-- Witness for C6: with the stand-in cipher and a 64-hex-character
key, a concrete plaintext survives the encrypt/decrypt roundtrip. -/
theorem encrypt_decrypt_master_key_witness :
    (SecureStore.hexDecode witnessKey.toList).length = 32 ∧
    ∃ blob, SecureStore.encrypt idCipher witnessKey c6Iv c6Plain = .ok blob ∧
      SecureStore.decrypt idCipher witnessKey blob = .ok c6Plain :=
  ⟨by decide,
    (encrypt_decrypt_master_key idCipher idCipher_sound witnessKey c6Iv c6Plain
      (by decide)).1 (by decide)⟩

/-- C1 (counterexample): `executeProposal` does not require prior
approval — on a proposal still in status `proposed` it calls the bridge
and moves the proposal straight to `executed`, instead of returning an
`invalid_status` error as the claim ("only when the status is
'approved'") requires. -/
theorem executeProposal_from_proposed_counterexample :
    (Proposals.executeProposal ⟨[⟨"p1", "u", "cancel_order", .proposed⟩], []⟩
        "u" "p1" true "a1").1 = .okExecuted "a1" ∧
    (Proposals.executeProposal ⟨[⟨"p1", "u", "cancel_order", .proposed⟩], []⟩
        "u" "p1" true "a1").2.1 = true ∧
    (Proposals.findProposal
        (Proposals.executeProposal ⟨[⟨"p1", "u", "cancel_order", .proposed⟩], []⟩
          "u" "p1" true "a1").2.2 "u" "p1").map (·.status) =
      some .executed := by
  decide

/-- Statuses from which `reviewProposal` will update. -/
def reviewableStatus (s : Proposals.Status) : Prop :=
  s = .proposed ∨ s = .approved ∨ s = .rejected

/-- Statuses from which `executeProposal` will execute. -/
def executableStatus (s : Proposals.Status) : Prop :=
  s = .proposed ∨ s = .approved

/-- Terminal statuses. -/
def terminalStatus (s : Proposals.Status) : Prop :=
  s = .executed ∨ s = .failed

/-- C1 (amended): the status machine the handlers actually implement.
`reviewProposal` moves a proposal whose status is `proposed`,
`approved`, or `rejected` to the chosen decision; `executeProposal`
calls the commerce bridge and moves the proposal to `executed` (bridge
success) or `failed` (bridge failure) when the status is `proposed` or
`approved` — human approval is not required; once a proposal is
`executed` or `failed`, `reviewProposal` and `executeProposal` return
an `invalid_status` error and leave the state unchanged, while
`bulkReviewProposals` skips such rows (leaving them unchanged) without
reporting an error.  The last two conjuncts characterize
`bulkReviewProposals` completely: every listed row of the user whose
status is `proposed`, `approved` or `rejected` takes the decision,
every other row is unchanged, and the returned `updated` list holds
exactly the changed rows' ids. -/
theorem proposal_status_machine (db : Proposals.Db) (u pid aid : String)
    (d : Proposals.ReviewDecision) (bridgeOk : Bool) (ids : List String)
    (row : Proposals.Proposal) (hrow : Proposals.findProposal db u pid = some row) :
    (reviewableStatus row.status →
      Proposals.reviewProposal db u pid d =
        (.ok, ⟨Proposals.setStatusById db.proposals pid d.toStatus, db.actions⟩)) ∧
    (terminalStatus row.status →
      Proposals.reviewProposal db u pid d = (.errInvalidStatus, db)) ∧
    (executableStatus row.status →
      Proposals.executeProposal db u pid bridgeOk aid =
        ((if bridgeOk then .okExecuted aid else .errExecutionFailed aid), true,
          ⟨Proposals.setStatusById db.proposals pid
              (if bridgeOk then .executed else .failed),
            db.actions ++ [⟨aid, pid, if bridgeOk then .executed else .failed⟩]⟩)) ∧
    ((row.status = .rejected ∨ terminalStatus row.status) →
      Proposals.executeProposal db u pid bridgeOk aid =
        (.errInvalidStatus, false, db)) ∧
    (∀ r ∈ db.proposals, terminalStatus r.status →
      r ∈ (Proposals.bulkReviewProposals db u ids d).2.proposals) ∧
    ((Proposals.bulkReviewProposals db u ids d).2.proposals =
      db.proposals.map (fun r =>
        if r.userId = u ∧ r.id ∈ ids ∧
            (r.status = .proposed ∨ r.status = .approved ∨ r.status = .rejected)
        then { r with status := d.toStatus } else r)) ∧
    ((Proposals.bulkReviewProposals db u ids d).1 =
      .okUpdated ((db.proposals.filter (fun r =>
        decide (r.userId = u ∧ r.id ∈ ids ∧
          (r.status = .proposed ∨ r.status = .approved ∨
            r.status = .rejected)))).map (·.id))) := by
  have hid : row.id = pid ∧ row.userId = u := by
    have hp := List.find?_some hrow
    simp only [Bool.and_eq_true, beq_iff_eq] at hp
    exact hp
  have hmatch : ∀ r : Proposals.Proposal,
      Proposals.bulkRowMatches u ids r =
        decide (r.userId = u ∧ r.id ∈ ids ∧
          (r.status = Proposals.Status.proposed ∨
            r.status = Proposals.Status.approved ∨
            r.status = Proposals.Status.rejected)) := by
    intro r
    rw [Bool.eq_iff_iff]
    simp [Proposals.bulkRowMatches, and_assoc, or_assoc]
  refine ⟨?_, ?_, ?_, ?_, ?_, ?_, ?_⟩
  · intro hrev
    simp only [Proposals.reviewProposal, hrow]
    rcases hrev with h | h | h <;>
      simp [h, hid.1]
  · intro hterm
    simp only [Proposals.reviewProposal, hrow]
    rcases hterm with h | h <;> simp [h]
  · intro hexe
    simp only [Proposals.executeProposal, hrow]
    rcases hexe with h | h <;>
      rcases bridgeOk with _ | _ <;>
        simp [h, hid.1]
  · intro hbad
    simp only [Proposals.executeProposal, hrow]
    rcases hbad with h | h | h <;> simp [h]
  · intro r hr hterm
    have hmatch : Proposals.bulkRowMatches u ids r = false := by
      rcases hterm with h | h <;> simp [Proposals.bulkRowMatches, h]
    simp only [Proposals.bulkReviewProposals]
    exact List.mem_map.mpr ⟨r, hr, by simp [hmatch]⟩
  · simp only [Proposals.bulkReviewProposals]
    refine List.map_congr_left ?_
    intro r _
    rw [hmatch r]
    by_cases hp : r.userId = u ∧ r.id ∈ ids ∧
        (r.status = Proposals.Status.proposed ∨
          r.status = Proposals.Status.approved ∨
          r.status = Proposals.Status.rejected)
    · simp [hp]
    · simp [hp]
  · simp only [Proposals.bulkReviewProposals]
    congr 1
    congr 1
    exact List.filter_congr (fun r _ => hmatch r)

/-- Witness for the amended C1 theorem at a concrete database: a
single review moves the approved row to rejected, and a bulk approve
over a proposed and an executed row updates exactly the proposed one,
reporting only its id. -/
theorem proposal_status_machine_witness :
    Proposals.reviewProposal c1Db "u" "p2" .rejected =
      (.ok, ⟨[⟨"p1", "u", "cancel_order", .proposed⟩,
        ⟨"p2", "u", "cancel_order", .rejected⟩,
        ⟨"p3", "u", "cancel_order", .executed⟩], []⟩) ∧
    (Proposals.bulkReviewProposals c1Db "u" ["p1", "p3"] .approved).2.proposals =
      [⟨"p1", "u", "cancel_order", .approved⟩,
        ⟨"p2", "u", "cancel_order", .approved⟩,
        ⟨"p3", "u", "cancel_order", .executed⟩] ∧
    (Proposals.bulkReviewProposals c1Db "u" ["p1", "p3"] .approved).1 =
      .okUpdated ["p1"] := by
  have h := proposal_status_machine c1Db "u" "p2" "a9" .rejected true ["p1", "p3"]
    ⟨"p2", "u", "cancel_order", .approved⟩ (by decide)
  have hb := proposal_status_machine c1Db "u" "p2" "a9" .approved true ["p1", "p3"]
    ⟨"p2", "u", "cancel_order", .approved⟩ (by decide)
  refine ⟨?_, ?_, ?_⟩
  · have h1 := h.1 (Or.inr (Or.inl rfl))
    rw [h1]
    decide
  · have h6 := hb.2.2.2.2.2.1
    rw [h6]
    decide
  · have h7 := hb.2.2.2.2.2.2
    rw [h7]
    decide

theorem insertOneProp_emails (env : Gmail.Env) (userId emailId : String)
    (st : Gmail.PersistState) (p : Gmail.PropItem) :
    (Gmail.insertOneProp env userId emailId st p).db.emails = st.db.emails := by
  simp only [Gmail.insertOneProp, Gmail.insertPropNoConflict]
  split <;> rfl

theorem foldl_insertOneProp_emails (env : Gmail.Env) (userId emailId : String)
    (items : List Gmail.PropItem) :
    ∀ st : Gmail.PersistState,
      (items.foldl (Gmail.insertOneProp env userId emailId) st).db.emails =
        st.db.emails := by
  induction items with
  | nil => intro st; rfl
  | cons p rest ih =>
      intro st
      rw [List.foldl_cons, ih, insertOneProp_emails]

theorem emailExists_insert (db : Gmail.Db) (row : Gmail.EmailRow)
    (userId m : String) (h : Gmail.emailExists db userId m = true) :
    Gmail.emailExists (Gmail.insertEmailNoConflict db row) userId m = true := by
  simp only [Gmail.insertEmailNoConflict]
  split
  · exact h
  · simp only [Gmail.emailExists, List.any_append] at h ⊢
    rw [h]
    rfl

theorem emailExists_insert_self (db : Gmail.Db) (id userId mid : String)
    (hist : Option Nat) :
    Gmail.emailExists (Gmail.insertEmailNoConflict db ⟨id, userId, mid, hist⟩)
      userId mid = true := by
  simp only [Gmail.insertEmailNoConflict]
  split
  · assumption
  · simp [Gmail.emailExists, List.any_append]

theorem emailExists_foldl_insertOneProp (env : Gmail.Env)
    (userId' emailId : String) (items : List Gmail.PropItem)
    (st : Gmail.PersistState) (u m : String) :
    Gmail.emailExists
        (items.foldl (Gmail.insertOneProp env userId' emailId) st).db u m =
      Gmail.emailExists st.db u m := by
  simp only [Gmail.emailExists]
  rw [foldl_insertOneProp_emails]

/-- Processing a message can only grow the set of stored emails. -/
theorem processMessage_email_mono (env : Gmail.Env) (userId : String)
    (st : Gmail.PersistState) (mid m : String)
    (h : Gmail.emailExists st.db userId m = true) :
    Gmail.emailExists (Gmail.processMessage env userId st mid).db userId m = true := by
  simp only [Gmail.processMessage]
  split
  · exact h
  · split
    · exact h
    · split
      · exact emailExists_insert _ _ _ _ h
      · split
        · rw [emailExists_foldl_insertOneProp]
          exact emailExists_insert _ _ _ _ h
        · exact emailExists_insert _ _ _ _ h

/-- After processing `mid`, either its email row exists or its fetch
failed. -/
theorem processMessage_covers (env : Gmail.Env) (userId : String)
    (st : Gmail.PersistState) (mid : String) :
    Gmail.emailExists (Gmail.processMessage env userId st mid).db userId mid = true ∨
      env.getMsg mid = none := by
  simp only [Gmail.processMessage]
  split
  · exact Or.inl (by assumption)
  · split
    · exact Or.inr (by assumption)
    · left
      split
      · exact emailExists_insert_self _ _ _ _ _
      · split
        · rw [emailExists_foldl_insertOneProp]
          exact emailExists_insert_self _ _ _ _ _
        · exact emailExists_insert_self _ _ _ _ _

theorem foldl_processMessage_mono (env : Gmail.Env) (userId : String)
    (ids : List String) :
    ∀ st m, Gmail.emailExists st.db userId m = true →
      Gmail.emailExists
        (ids.foldl (Gmail.processMessage env userId) st).db userId m = true := by
  induction ids with
  | nil => intro st m h; exact h
  | cons x rest ih =>
      intro st m h
      rw [List.foldl_cons]
      exact ih _ m (processMessage_email_mono env userId st x m h)

/-- Every processed id ends the run with a row or a failed fetch. -/
theorem foldl_processMessage_covers (env : Gmail.Env) (userId : String)
    (ids : List String) :
    ∀ st, ∀ m ∈ ids,
      Gmail.emailExists
        (ids.foldl (Gmail.processMessage env userId) st).db userId m = true ∨
      env.getMsg m = none := by
  induction ids with
  | nil => intro st m hm; cases hm
  | cons x rest ih =>
      intro st m hm
      rw [List.foldl_cons]
      rcases List.mem_cons.mp hm with rfl | hm'
      · rcases processMessage_covers env userId st m with h | h
        · exact Or.inl (foldl_processMessage_mono env userId rest _ m h)
        · exact Or.inr h
      · exact ih _ m hm'

/-- A message that is already stored, or whose fetch fails, changes
nothing but (in the latter case) the fetch log. -/
theorem processMessage_skip (env : Gmail.Env) (userId : String)
    (st : Gmail.PersistState) (mid : String)
    (h : Gmail.emailExists st.db userId mid = true ∨ env.getMsg mid = none) :
    (Gmail.processMessage env userId st mid).db = st.db ∧
    ((Gmail.processMessage env userId st mid).fetchCalls = st.fetchCalls ∨
      (Gmail.processMessage env userId st mid).fetchCalls =
        st.fetchCalls ++ [mid] ∧ env.getMsg mid = none) := by
  simp only [Gmail.processMessage]
  split
  · exact ⟨rfl, Or.inl rfl⟩
  · rename_i hnot
    rcases h with h | h
    · exact absurd h (by simpa using hnot)
    · refine ⟨?_, Or.inr ⟨?_, h⟩⟩ <;> rw [h]

theorem foldl_processMessage_skip (env : Gmail.Env) (userId : String)
    (db0 : Gmail.Db) (ids : List String)
    (hcov : ∀ m ∈ ids, Gmail.emailExists db0 userId m = true ∨
      env.getMsg m = none) :
    ∀ st : Gmail.PersistState, st.db = db0 →
      (ids.foldl (Gmail.processMessage env userId) st).db = db0 ∧
      (∀ m ∈ (ids.foldl (Gmail.processMessage env userId) st).fetchCalls,
        m ∈ st.fetchCalls ∨ env.getMsg m = none) := by
  induction ids with
  | nil => intro st hst; exact ⟨hst, fun m hm => Or.inl hm⟩
  | cons x rest ih =>
      intro st hst
      rw [List.foldl_cons]
      have hx := hcov x (List.mem_cons_self x rest)
      rw [← hst] at hx
      obtain ⟨hdb, hcalls⟩ := processMessage_skip env userId st x hx
      have hrest := ih (fun m hm => hcov m (List.mem_cons_of_mem x hm))
        (Gmail.processMessage env userId st x) (hdb.trans hst)
      refine ⟨hrest.1, fun m hm => ?_⟩
      rcases hrest.2 m hm with hin | hfail
      · rcases hcalls with hsame | ⟨happ, hfailx⟩
        · exact Or.inl (hsame ▸ hin)
        · rw [happ] at hin
          rcases List.mem_append.mp hin with h1 | h2
          · exact Or.inl h1
          · rcases List.mem_singleton.mp h2 with rfl
            exact Or.inr hfailx
      · exact Or.inr hfail

/-- C3: the persistence phase of `pollForUser` is idempotent.  With the
dedup check before each per-message fetch, the conflict-do-nothing
email insert on the unique `(userId, gmailMessageId)` index, and the
conflict-do-nothing proposal insert on the unique
`(emailId, actionType, payloadHash)` index, a second run over the same
set of message ids (against the same oracles) inserts no new email row
and no new proposal row, and only ever re-fetches ids whose first fetch
already failed — ids with a stored row are skipped before any fetch. -/
theorem persistAll_idempotent (env : Gmail.Env) (userId : String)
    (db : Gmail.Db) (ids : List String) :
    (Gmail.persistAll env userId
        (Gmail.persistAll env userId db ids).db ids).db =
      (Gmail.persistAll env userId db ids).db ∧
    ∀ m ∈ (Gmail.persistAll env userId
        (Gmail.persistAll env userId db ids).db ids).fetchCalls,
      env.getMsg m = none := by
  have hcov : ∀ m ∈ ids,
      Gmail.emailExists (Gmail.persistAll env userId db ids).db userId m = true ∨
        env.getMsg m = none :=
    fun m hm => foldl_processMessage_covers env userId ids _ m hm
  obtain ⟨hdb, hcalls⟩ := foldl_processMessage_skip env userId
    (Gmail.persistAll env userId db ids).db ids hcov
    ⟨(Gmail.persistAll env userId db ids).db, 0, 0, 0, none, []⟩ rfl
  refine ⟨hdb, fun m hm => ?_⟩
  rcases hcalls m hm with h | h
  · cases h
  · exact h

theorem collectHistoryGo_pages (env : Gmail.Env) (cursor : Nat) :
    ∀ fuel page ids maxSeen,
      (Gmail.collectHistoryGo env cursor page fuel ids maxSeen).pagesUsed ≤
        page + fuel := by
  intro fuel
  induction fuel with
  | zero =>
      intro page ids maxSeen
      exact Nat.le_refl _
  | succ fuel ih =>
      intro page ids maxSeen
      simp only [Gmail.collectHistoryGo]
      split
      · show page + 1 ≤ page + (fuel + 1)
        omega
      · show page + 1 ≤ page + (fuel + 1)
        omega
      · split
        · exact le_trans (ih (page + 1) _ _) (by omega)
        · show page + 1 ≤ page + (fuel + 1)
          omega

/-- Behaviour of `resolveIds` when a cursor is stored: history ids when
the delta yields any, otherwise the fallback list query with the label
query and the caller's `maxResults`. -/
theorem resolveIds_char (env : Gmail.Env) (envDefault : String)
    (s : Gmail.Settings) (maxResults c : Nat)
    (hc : s.gmailLastHistoryId = some c) :
    (Gmail.effectiveHistIds env c ≠ [] ∧
      Gmail.resolveIds env envDefault s maxResults =
        (.history (Gmail.effectiveHistIds env c),
          some (Gmail.collectHistory env c).maxSeen,
          (Gmail.collectHistory env c).pagesUsed)) ∨
    (Gmail.effectiveHistIds env c = [] ∧
      ((∃ l, env.listResp (Gmail.labelQueryOf envDefault s) maxResults = some l ∧
          Gmail.resolveIds env envDefault s maxResults =
            (.list (Gmail.labelQueryOf envDefault s) maxResults l, some c,
              (Gmail.collectHistory env c).pagesUsed)) ∨
        (env.listResp (Gmail.labelQueryOf envDefault s) maxResults = none ∧
          Gmail.resolveIds env envDefault s maxResults =
            (.listFailed (Gmail.labelQueryOf envDefault s) maxResults, some c,
              (Gmail.collectHistory env c).pagesUsed)))) := by
  have heq : (if (Gmail.collectHistory env c).threw then []
      else (Gmail.collectHistory env c).ids) = Gmail.effectiveHistIds env c := rfl
  cases hids : Gmail.effectiveHistIds env c with
  | nil =>
      right
      refine ⟨rfl, ?_⟩
      cases hl : env.listResp (Gmail.labelQueryOf envDefault s) maxResults with
      | some l =>
          left
          exact ⟨l, rfl, by simp only [Gmail.resolveIds, hc, heq, hids, hl,
            List.isEmpty_nil, if_true]⟩
      | none =>
          right
          exact ⟨rfl, by simp only [Gmail.resolveIds, hc, heq, hids, hl,
            List.isEmpty_nil, if_true]⟩
  | cons x xs =>
      left
      refine ⟨by simp, ?_⟩
      simp only [Gmail.resolveIds, hc, heq, hids, List.isEmpty_cons,
        Bool.false_eq_true, if_false]

/-- C4: `pollForUser` performs delta sync through the History API when
a `gmailLastHistoryId` cursor is stored, touching at most 5 pages, and
falls back to the full list query — with the configured label query and
the caller's `maxResults` — exactly when the delta path yields zero
message ids (no cursor, an aborted history request, or an empty
delta). -/
theorem pollForUser_delta_fallback (env : Gmail.Env) (envDefault : String)
    (s : Gmail.Settings) (maxResults : Nat) :
    (s.gmailLastHistoryId = none →
      Gmail.resolveIds env envDefault s maxResults =
        (match env.listResp (Gmail.labelQueryOf envDefault s) maxResults with
         | some l => (.list (Gmail.labelQueryOf envDefault s) maxResults l, none, 0)
         | none => (.listFailed (Gmail.labelQueryOf envDefault s) maxResults,
             none, 0))) ∧
    (∀ c, s.gmailLastHistoryId = some c →
      (Gmail.collectHistory env c).pagesUsed ≤ 5 ∧
      (Gmail.effectiveHistIds env c ≠ [] →
        Gmail.resolveIds env envDefault s maxResults =
          (.history (Gmail.effectiveHistIds env c),
            some (Gmail.collectHistory env c).maxSeen,
            (Gmail.collectHistory env c).pagesUsed)) ∧
      (Gmail.effectiveHistIds env c = [] →
        Gmail.resolveIds env envDefault s maxResults =
          (match env.listResp (Gmail.labelQueryOf envDefault s) maxResults with
           | some l => (.list (Gmail.labelQueryOf envDefault s) maxResults l,
               some c, (Gmail.collectHistory env c).pagesUsed)
           | none => (.listFailed (Gmail.labelQueryOf envDefault s) maxResults,
               some c, (Gmail.collectHistory env c).pagesUsed)))) := by
  constructor
  · intro h
    cases hl : env.listResp (Gmail.labelQueryOf envDefault s) maxResults <;>
      simp only [Gmail.resolveIds, h, hl]
  · intro c hc
    refine ⟨by simpa using collectHistoryGo_pages env c 5 0 [] c, ?_, ?_⟩
    · intro hne
      rcases resolveIds_char env envDefault s maxResults c hc with
        ⟨_, hres⟩ | ⟨hnil, _⟩
      · exact hres
      · exact absurd hnil hne
    · intro hnil
      rcases resolveIds_char env envDefault s maxResults c hc with
        ⟨hne, _⟩ | ⟨_, ⟨l, hl, hres⟩ | ⟨hl, hres⟩⟩
      · exact absurd hnil hne
      · rw [hres, hl]
      · rw [hres, hl]

/-- Witness for C4: with the stored cursor 1000 but an empty delta, the
run falls back to the label-query list. -/
theorem pollForUser_delta_fallback_witness :
    Gmail.resolveIds c10Env "q" c10Settings 25 =
      (.list "label:support" 25 ["m1"], some 1000, 1) := by
  have h := (pollForUser_delta_fallback c10Env "q" c10Settings 25).2 1000 rfl
  have h3 := h.2.2 (by decide)
  rw [h3]
  decide

theorem foldl_procRecord_maxSeen (records : List Gmail.HistRecord) :
    ∀ p : List String × Nat, p.2 ≤ (records.foldl Gmail.procRecord p).2 := by
  induction records with
  | nil => intro p; exact Nat.le_refl _
  | cons r rest ih =>
      intro p
      rw [List.foldl_cons]
      refine le_trans ?_ (ih (Gmail.procRecord p r))
      simp only [Gmail.procRecord]
      cases r.id with
      | none => exact Nat.le_refl _
      | some hid =>
          simp only
          split <;> omega

theorem collectHistoryGo_maxSeen (env : Gmail.Env) (cursor : Nat) :
    ∀ fuel page ids maxSeen, cursor ≤ maxSeen →
      cursor ≤ (Gmail.collectHistoryGo env cursor page fuel ids maxSeen).maxSeen := by
  intro fuel
  induction fuel with
  | zero => intro page ids maxSeen h; exact h
  | succ fuel ih =>
      intro page ids maxSeen h
      simp only [Gmail.collectHistoryGo]
      split
      · exact Nat.le_refl _
      · exact h
      · split
        · exact ih (page + 1) _ _
            (le_trans h (foldl_procRecord_maxSeen _ (ids, maxSeen)))
        · exact le_trans h (foldl_procRecord_maxSeen _ (ids, maxSeen))

theorem insertOneProp_maxHist (env : Gmail.Env) (userId emailId : String)
    (st : Gmail.PersistState) (p : Gmail.PropItem) :
    (Gmail.insertOneProp env userId emailId st p).maxHistMsgs = st.maxHistMsgs := rfl

theorem foldl_insertOneProp_maxHist (env : Gmail.Env) (userId emailId : String)
    (items : List Gmail.PropItem) :
    ∀ st : Gmail.PersistState,
      (items.foldl (Gmail.insertOneProp env userId emailId) st).maxHistMsgs =
        st.maxHistMsgs := by
  induction items with
  | nil => intro st; rfl
  | cons p rest ih =>
      intro st
      rw [List.foldl_cons, ih, insertOneProp_maxHist]

theorem processMessage_maxHist (env : Gmail.Env) (userId : String) (c : Nat)
    (hmsgs : ∀ mid msg h, env.getMsg mid = some msg →
      msg.historyId = some h → c ≤ h)
    (st : Gmail.PersistState) (mid : String)
    (hst : ∀ h, st.maxHistMsgs = some h → c ≤ h) :
    ∀ h, (Gmail.processMessage env userId st mid).maxHistMsgs = some h → c ≤ h := by
  simp only [Gmail.processMessage]
  split
  · exact hst
  · split
    · exact hst
    · rename_i msg hg
      have hnew : ∀ h, (match msg.historyId, st.maxHistMsgs with
          | some h', some m => some (if h' > m then h' else m)
          | some h', none => some h'
          | none, m => m) = some h → c ≤ h := by
        intro h hh
        cases hh1 : msg.historyId with
        | none =>
            rw [hh1] at hh
            exact hst h hh
        | some h' =>
            have hch' : c ≤ h' := hmsgs mid msg h' hg hh1
            cases hh2 : st.maxHistMsgs with
            | none =>
                rw [hh1, hh2] at hh
                cases hh
                exact hch'
            | some m =>
                rw [hh1, hh2] at hh
                have hcm : c ≤ m := hst m hh2
                cases hh
                split <;> omega
      split
      · exact hnew
      · split
        · intro h hh
          rw [foldl_insertOneProp_maxHist] at hh
          exact hnew h hh
        · exact hnew

theorem foldl_processMessage_maxHist (env : Gmail.Env) (userId : String)
    (c : Nat)
    (hmsgs : ∀ mid msg h, env.getMsg mid = some msg →
      msg.historyId = some h → c ≤ h) (ids : List String) :
    ∀ st : Gmail.PersistState, (∀ h, st.maxHistMsgs = some h → c ≤ h) →
      ∀ h, (ids.foldl (Gmail.processMessage env userId) st).maxHistMsgs =
        some h → c ≤ h := by
  induction ids with
  | nil => intro st hst; exact hst
  | cons x rest ih =>
      intro st hst
      rw [List.foldl_cons]
      exact ih _ (processMessage_maxHist env userId c hmsgs st x hst)

theorem pollForUser_unfold_main (env : Gmail.Env) (envDefault : String)
    (tok : Gmail.TokenState) (s : Gmail.Settings) (db : Gmail.Db) (u : String)
    (maxResults : Nat) (hen : s.gmailAutoPullEnabled = true)
    (htok : tok.hasToken = true) (hacc : tok.hasAccessToken = true)
    (src : Gmail.IdSource) (nx : Option Nat) (pg : Nat)
    (hres : Gmail.resolveIds env envDefault s maxResults = (src, nx, pg)) :
    Gmail.pollForUser env envDefault tok s db u maxResults =
      (match src with
       | .listFailed _ _ =>
           ⟨.listFailed, db, s.gmailLastHistoryId, [], pg, some src⟩
       | .history ids =>
           ⟨.success (Gmail.persistAll env u db ids).fetched
               (Gmail.persistAll env u db ids).proposedCnt,
             (Gmail.persistAll env u db ids).db,
             (match (Gmail.persistAll env u db ids).maxHistMsgs with
              | some h => some h
              | none => match nx with
                | some c' => some c'
                | none => s.gmailLastHistoryId),
             (Gmail.persistAll env u db ids).fetchCalls, pg, some src⟩
       | .list _ _ ids =>
           ⟨.success (Gmail.persistAll env u db ids).fetched
               (Gmail.persistAll env u db ids).proposedCnt,
             (Gmail.persistAll env u db ids).db,
             (match (Gmail.persistAll env u db ids).maxHistMsgs with
              | some h => some h
              | none => match nx with
                | some c' => some c'
                | none => s.gmailLastHistoryId),
             (Gmail.persistAll env u db ids).fetchCalls, pg, some src⟩) := by
  simp only [Gmail.pollForUser, hen, htok, hacc, hres, Bool.not_true,
    Bool.false_eq_true, if_false]
  cases src with
  | listFailed q n => simp
  | history ids =>
      simp
      cases (Gmail.persistAll env u db ids).maxHistMsgs <;> cases nx <;> simp
  | list q n ids =>
      simp
      cases (Gmail.persistAll env u db ids).maxHistMsgs <;> cases nx <;> simp

/-- C10 (amended): after a completed run, the stored cursor is the max
`historyId` among newly inserted messages when any message carried one,
else the max history id observed in the delta when the delta yielded
ids, else the previous cursor.  Monotonicity (`new ≥ old`) therefore
holds whenever every inserted message's `historyId` is at least the
previous cursor — in particular it cannot be guaranteed unconditionally,
because a fallback-list run may insert a message whose `historyId` is
older than the cursor (see the counterexample); a run that inserts no
history ids and whose source carried no delta leaves the cursor
unchanged. -/
theorem pollForUser_cursor_monotone (env : Gmail.Env) (envDefault : String)
    (tok : Gmail.TokenState) (s : Gmail.Settings) (db : Gmail.Db) (u : String)
    (maxResults c : Nat) (hc : s.gmailLastHistoryId = some c)
    (hmsgs : ∀ mid msg h, env.getMsg mid = some msg →
      msg.historyId = some h → c ≤ h) :
    (∀ v, (Gmail.pollForUser env envDefault tok s db u maxResults).settingsCursor =
        some v → c ≤ v) ∧
    (∀ q n ids, (Gmail.pollForUser env envDefault tok s db u maxResults).source =
        some (.list q n ids) →
      (Gmail.persistAll env u db ids).maxHistMsgs = none →
      (Gmail.pollForUser env envDefault tok s db u maxResults).settingsCursor =
        some c) := by
  have hinit : ∀ h, (none : Option Nat) = some h → c ≤ h := fun h hh => nomatch hh
  by_cases hen : s.gmailAutoPullEnabled = true
  case neg =>
    have hen' : s.gmailAutoPullEnabled = false := by simpa using hen
    have hpoll : Gmail.pollForUser env envDefault tok s db u maxResults =
        ⟨.disabledRun, db, s.gmailLastHistoryId, [], 0, none⟩ := by
      simp [Gmail.pollForUser, hen']
    rw [hpoll]
    exact ⟨fun v hv => le_of_eq (Option.some.inj ((hc ▸ hv : some c = some v))),
      fun q n ids hsrc => by simp at hsrc⟩
  case pos =>
  by_cases htok : tok.hasToken = true
  case neg =>
    have htok' : tok.hasToken = false := by simpa using htok
    have hpoll : Gmail.pollForUser env envDefault tok s db u maxResults =
        ⟨.noToken, db, s.gmailLastHistoryId, [], 0, none⟩ := by
      simp [Gmail.pollForUser, hen, htok']
    rw [hpoll]
    exact ⟨fun v hv => le_of_eq (Option.some.inj ((hc ▸ hv : some c = some v))),
      fun q n ids hsrc => by simp at hsrc⟩
  case pos =>
  by_cases hacc : tok.hasAccessToken = true
  case neg =>
    have hacc' : tok.hasAccessToken = false := by simpa using hacc
    have hpoll : Gmail.pollForUser env envDefault tok s db u maxResults =
        ⟨.noAccessToken, db, s.gmailLastHistoryId, [], 0, none⟩ := by
      simp [Gmail.pollForUser, hen, htok, hacc']
    rw [hpoll]
    exact ⟨fun v hv => le_of_eq (Option.some.inj ((hc ▸ hv : some c = some v))),
      fun q n ids hsrc => by simp at hsrc⟩
  case pos =>
  rcases resolveIds_char env envDefault s maxResults c hc with
    ⟨hne, hres⟩ | ⟨hnil, ⟨l, hl, hres⟩ | ⟨hl, hres⟩⟩
  · -- history path
    have hpoll := pollForUser_unfold_main env envDefault tok s db u maxResults
      hen htok hacc _ _ _ hres
    rw [hpoll]
    constructor
    · intro v hv
      simp only at hv
      cases hmh : (Gmail.persistAll env u db
          (Gmail.effectiveHistIds env c)).maxHistMsgs with
      | some h =>
          rw [hmh] at hv
          have hch : c ≤ h :=
            foldl_processMessage_maxHist env u c hmsgs
              (Gmail.effectiveHistIds env c) _ hinit h hmh
          exact le_trans hch (le_of_eq (Option.some.inj hv))
      | none =>
          rw [hmh] at hv
          have hcm : c ≤ (Gmail.collectHistory env c).maxSeen :=
            collectHistoryGo_maxSeen env c 5 0 [] c (Nat.le_refl c)
          exact le_trans hcm (le_of_eq (Option.some.inj hv))
    · intro q n ids hsrc
      simp only at hsrc
      simp at hsrc
  · -- fallback list path
    have hpoll := pollForUser_unfold_main env envDefault tok s db u maxResults
      hen htok hacc _ _ _ hres
    rw [hpoll]
    constructor
    · intro v hv
      simp only at hv
      cases hmh : (Gmail.persistAll env u db l).maxHistMsgs with
      | some h =>
          rw [hmh] at hv
          have hch : c ≤ h :=
            foldl_processMessage_maxHist env u c hmsgs l _ hinit h hmh
          exact le_trans hch (le_of_eq (Option.some.inj hv))
      | none =>
          rw [hmh] at hv
          exact le_of_eq (Option.some.inj hv)
    · intro q n ids hsrc hmh
      simp only at hsrc
      have hids : ids = l := by
        have := Option.some.inj hsrc
        cases this
        rfl
      subst hids
      simp only
      rw [hmh]
  · -- list failed path
    have hpoll := pollForUser_unfold_main env envDefault tok s db u maxResults
      hen htok hacc _ _ _ hres
    rw [hpoll]
    exact ⟨fun v hv => le_of_eq (Option.some.inj ((hc ▸ hv : some c = some v))),
      fun q n ids hsrc => by simp at hsrc⟩

/-- C10 (counterexample): the claimed monotonicity fails.  With stored
cursor 1000, an ok-but-empty history delta, and a fallback list
returning one unseen message whose own `historyId` is 5, the run
completes successfully and stores cursor 5 < 1000. -/
theorem pollForUser_cursor_counterexample :
    c10Settings.gmailLastHistoryId = some 1000 ∧
    (Gmail.pollForUser c10Env "q" ⟨true, true⟩ c10Settings ⟨[], []⟩ "u" 25).outcome =
      .success 1 0 ∧
    (Gmail.pollForUser c10Env "q" ⟨true, true⟩ c10Settings
        ⟨[], []⟩ "u" 25).settingsCursor = some 5 ∧
    (5 : Nat) < 1000 := by
  decide

/-- Witness for the amended C10 theorem: with cursor 3 below the
inserted message's historyId 5, the stored cursor moves to 5 ≥ 3. -/
theorem pollForUser_cursor_monotone_witness :
    (3 : Nat) ≤ 5 ∧
    (Gmail.pollForUser c10Env "q" ⟨true, true⟩ c10bSettings
        ⟨[], []⟩ "u" 25).settingsCursor = some 5 := by
  have hmsgs : ∀ mid msg h', c10Env.getMsg mid = some msg →
      msg.historyId = some h' → 3 ≤ h' := by
    intro mid msg h' hg hh
    have h1 : (⟨some 5, "hello"⟩ : Gmail.Msg) = msg := Option.some.inj hg
    have h2 : (5 : Nat) = h' := by
      rw [← h1] at hh
      exact Option.some.inj hh
    omega
  have h := pollForUser_cursor_monotone c10Env "q" ⟨true, true⟩ c10bSettings
    ⟨[], []⟩ "u" 25 3 rfl hmsgs
  exact ⟨h.1 5 (by decide), by decide⟩

/-- C5: the poll entry point's guards.  The 5-second throttle against
`settings.lastPollAt` is checked first: within 5000 ms of a recorded
last poll the call returns `POLL_THROTTLED` and no sync starts; then
the in-process `activePolls` map is checked: with an in-flight poll for
the user the call returns `POLL_CONCURRENT` and no sync starts;
otherwise the sync runs and registers the user, after which any further
entry for that user cannot run until the in-flight poll settles, and
settling removes exactly that registration, restoring the state. -/
theorem poll_guard (s : Poll.GuardState) (u : String) (now : Int) :
    (Poll.lastOf s u ≠ 0 ∧ now - Poll.lastOf s u < 5000 →
      Poll.pollEnter s u now = (.throttled, s)) ∧
    (¬(Poll.lastOf s u ≠ 0 ∧ now - Poll.lastOf s u < 5000) →
      s.active.contains u = true →
      Poll.pollEnter s u now = (.concurrent, s)) ∧
    (¬(Poll.lastOf s u ≠ 0 ∧ now - Poll.lastOf s u < 5000) →
      s.active.contains u = false →
      Poll.pollEnter s u now = (.run, ⟨u :: s.active, s.lastPollAt⟩)) ∧
    ((Poll.pollEnter s u now).1 = .run →
      ∀ now', (Poll.pollEnter (Poll.pollEnter s u now).2 u now').1 ≠ .run) ∧
    ((Poll.pollEnter s u now).1 = .run →
      Poll.pollSettle (Poll.pollEnter s u now).2 u = s) := by
  refine ⟨?_, ?_, ?_, ?_, ?_⟩
  · intro h
    simp only [Poll.pollEnter]
    rw [if_pos h]
  · intro hn hcon
    simp only [Poll.pollEnter]
    rw [if_neg hn, hcon]
    simp
  · intro hn hcon
    simp only [Poll.pollEnter]
    rw [if_neg hn, hcon]
    simp
  · intro hrun now'
    by_cases hth : Poll.lastOf s u ≠ 0 ∧ now - Poll.lastOf s u < 5000
    · rw [show Poll.pollEnter s u now = (.throttled, s) from by
        simp only [Poll.pollEnter]; rw [if_pos hth]] at hrun
      cases hrun
    · cases hcon : s.active.contains u with
      | true =>
          rw [show Poll.pollEnter s u now = (.concurrent, s) from by
            simp only [Poll.pollEnter]; rw [if_neg hth, hcon]; simp] at hrun
          cases hrun
      | false =>
          rw [show Poll.pollEnter s u now = (.run, ⟨u :: s.active, s.lastPollAt⟩)
            from by simp only [Poll.pollEnter]; rw [if_neg hth, hcon]; simp]
          simp only [Poll.pollEnter]
          split
          · intro hd
            cases hd
          · rw [if_pos (by simp : (u :: s.active).contains u = true)]
            intro hd
            cases hd
  · intro hrun
    by_cases hth : Poll.lastOf s u ≠ 0 ∧ now - Poll.lastOf s u < 5000
    · rw [show Poll.pollEnter s u now = (.throttled, s) from by
        simp only [Poll.pollEnter]; rw [if_pos hth]] at hrun
      cases hrun
    · cases hcon : s.active.contains u with
      | true =>
          rw [show Poll.pollEnter s u now = (.concurrent, s) from by
            simp only [Poll.pollEnter]; rw [if_neg hth, hcon]; simp] at hrun
          cases hrun
      | false =>
          rw [show Poll.pollEnter s u now = (.run, ⟨u :: s.active, s.lastPollAt⟩)
            from by simp only [Poll.pollEnter]; rw [if_neg hth, hcon]; simp]
          simp [Poll.pollSettle]

/-- Witness for C5: an idle user enters and runs; a second entry while
the first is in flight is refused. -/
theorem poll_guard_witness :
    Poll.pollEnter ⟨[], []⟩ "u" 10000 = (.run, ⟨["u"], []⟩) ∧
    (Poll.pollEnter ⟨["u"], []⟩ "u" 10001).1 ≠ .run := by
  have h := poll_guard ⟨[], []⟩ "u" 10000
  have hrun : (Poll.pollEnter ⟨[], []⟩ "u" 10000).1 = .run := by decide
  have h4 := h.2.2.2.1 hrun 10001
  have h2 : (Poll.pollEnter ⟨[], []⟩ "u" 10000).2 =
      (⟨["u"], []⟩ : Poll.GuardState) := by decide
  rw [h2] at h4
  exact ⟨h.2.2.1 (by decide) (by decide), h4⟩
